import Mathlib

/-!
Verification development for the sales analysis system (src/main.py and its
collaborator modules).  The data-cleaning and aggregation core (the
DataLoader.clean_data and SalesAnalyzer methods) is not shipped under src/,
only its caller src/main.py is; those parts are modelled from the spec, as
marked on each definition.  The export logic (SalesAnalysisSystem.export_results
and export_to_csv) and the run orchestration are embedded from src/main.py.

Monetary values are modelled as rationals; rounding to 2 decimals is
round-half to nearest on hundredths.
-/

/-- Calendar date, modelled as a year/month/day triple.  Source dates are
pandas timestamps; only ordering and truncation to month matter to the core. -/
structure Date where
  year : Nat
  month : Nat
  day : Nat
deriving DecidableEq

/-- Numeric key giving the chronological order of dates. -/
def dateKey (d : Date) : Nat := d.year * 10000 + d.month * 100 + d.day

/-- Date truncated to month, as a numeric chronological key. -/
def monthKey (d : Date) : Nat := d.year * 100 + d.month

/-- Round a rational to 2 decimal places (nearest hundredth). -/
def round2 (q : ℚ) : ℚ := (round (q * 100) : ℤ) / 100

/-- Raw Record: one untyped input row.  A field is none when the column value
is missing or unparseable for its expected type; a present value is the parsed
(possibly coerced) typed value.  No invariants are guaranteed. -/
structure RawRecord where
  product_id : Option String
  sale_date : Option Date
  sales_rep : Option String
  region : Option String
  category : Option String
  quantity : Option Int
  unit_cost : Option ℚ
  unit_price : Option ℚ
  discount_pct : Option ℚ
  sales_amount : Option ℚ
deriving DecidableEq

/-- A validated, typed row before derived fields are computed. -/
structure KeptRow where
  product_id : String
  sale_date : Date
  sales_rep : String
  region : String
  category : String
  quantity : Int
  unit_cost : ℚ
  unit_price : ℚ
  discount_pct : ℚ
deriving DecidableEq

/-- Sales Record: a validated row with derived fields computed. -/
structure SalesRecord where
  product_id : String
  sale_date : Date
  sales_rep : String
  region : String
  category : String
  quantity : Int
  unit_cost : ℚ
  unit_price : ℚ
  discount_pct : ℚ
  sales_amount : ℚ
  profit : ℚ
  region_rep : String
deriving DecidableEq

/-- Modelled from the spec: the Schema Validator (missing module data_loader,
§4.1 and §3).  Classifies a Raw Record: a row is kept exactly when every
required field is present (coercion is absorbed into the typed Option fields)
and the numeric and non-emptiness invariants hold: non-empty strings,
quantity > 0, unit_cost ≥ 0, unit_price ≥ 0, discount_pct in [0, 100).
The raw sales_amount column is not consulted: it is a derived column and is
recomputed later (§4.2 step 3). -/
def validateRow (r : RawRecord) : Option KeptRow :=
  match r.product_id, r.sale_date, r.sales_rep, r.region, r.category,
        r.quantity, r.unit_cost, r.unit_price, r.discount_pct with
  | some pid, some d, some rep, some reg, some cat,
    some q, some uc, some up, some disc =>
    if pid ≠ "" ∧ rep ≠ "" ∧ reg ≠ "" ∧ cat ≠ "" ∧ 0 < q ∧ 0 ≤ uc ∧ 0 ≤ up ∧
       0 ≤ disc ∧ disc < 100 then
      some ⟨pid, d, rep, reg, cat, q, uc, up, disc⟩
    else
      none
  | _, _, _, _, _, _, _, _, _ => none

/-- The deduplication key: the (product_id, sale_date, sales_rep) triple of a
kept row. -/
def tripleK (k : KeptRow) : String × Date × String :=
  (k.product_id, k.sale_date, k.sales_rep)

/-- The (product_id, sale_date, sales_rep) triple of a Sales Record. -/
def tripleS (r : SalesRecord) : String × Date × String :=
  (r.product_id, r.sale_date, r.sales_rep)

/-- Modelled from the spec: first-occurrence deduplication (missing module
data_loader, §4.2 step 2), generic in the key.  seen accumulates the keys of
rows already kept; a row whose key was seen is dropped. -/
def dedupFirstAux {α κ : Type} [DecidableEq κ] (key : α → κ) :
    List κ → List α → List α
  | _, [] => []
  | seen, x :: xs =>
    if key x ∈ seen then dedupFirstAux key seen xs
    else x :: dedupFirstAux key (key x :: seen) xs

/-- Keep the first occurrence of each key, in order. -/
def dedupFirst {α κ : Type} [DecidableEq κ] (key : α → κ) (l : List α) :
    List α :=
  dedupFirstAux key [] l

/-- Modelled from the spec: derived-field computation (missing module
data_loader, §4.2 step 3 and §3).  sales_amount is recomputed from
unit_price, quantity and discount_pct and rounded to 2 decimals; any raw
sales_amount was already discarded by validation (the recomputed value wins).
profit is sales_amount - unit_cost * quantity; region_rep joins region and
sales_rep with an underscore. -/
def addDerived (k : KeptRow) : SalesRecord :=
  let amount := round2 (k.unit_price * (k.quantity : ℚ) * (1 - k.discount_pct / 100))
  { product_id := k.product_id
    sale_date := k.sale_date
    sales_rep := k.sales_rep
    region := k.region
    category := k.category
    quantity := k.quantity
    unit_cost := k.unit_cost
    unit_price := k.unit_price
    discount_pct := k.discount_pct
    sales_amount := amount
    profit := amount - k.unit_cost * (k.quantity : ℚ)
    region_rep := k.region ++ "_" ++ k.sales_rep }

/-- Chronological order on Sales Records (sort key of the cleaned dataset). -/
def dateLe (a b : SalesRecord) : Prop := dateKey a.sale_date ≤ dateKey b.sale_date

instance : DecidableRel dateLe := fun _ _ => Nat.decLe _ _

instance : IsTotal SalesRecord dateLe := ⟨fun _ _ => Nat.le_total _ _⟩

instance : IsTrans SalesRecord dateLe := ⟨fun _ _ _ => Nat.le_trans⟩

/-- Rows kept by the Schema Validator, in original file order (§4.2 step 1). -/
def keptRows (raw : List RawRecord) : List KeptRow := raw.filterMap validateRow

/-- Kept rows after first-occurrence deduplication on the
(product_id, sale_date, sales_rep) triple (§4.2 step 2). -/
def dedupedRows (raw : List RawRecord) : List KeptRow :=
  dedupFirst tripleK (keptRows raw)

/-- Deduplicated rows with derived fields computed (§4.2 step 3). -/
def derivedRows (raw : List RawRecord) : List SalesRecord :=
  (dedupedRows raw).map addDerived

/-- Modelled from the spec: the Data Cleaner pipeline (missing module
data_loader, clean_data, §4.2): validate, deduplicate, derive, then stable
sort by sale_date ascending (§4.2 step 4). -/
def clean_data (raw : List RawRecord) : List SalesRecord :=
  List.insertionSort dateLe (derivedRows raw)

/-- Cleaning report counts surfaced to the operator (§6). -/
structure CleaningReport where
  accepted : Nat
  rejected : Nat
  duplicates_dropped : Nat
deriving DecidableEq

/-- Modelled from the spec: the cleaning report (missing module data_loader,
§4.2 and §6): rows kept, rows rejected, and duplicates dropped by step 2. -/
def cleaningReport (raw : List RawRecord) : CleaningReport :=
  { accepted := (keptRows raw).length
    rejected := raw.length - (keptRows raw).length
    duplicates_dropped := (keptRows raw).length - (dedupedRows raw).length }

/-- One row of an Analysis Result table: a group key with its aggregate
columns (§4.4). -/
structure GroupRow (κ : Type) where
  key : κ
  transaction_count : Nat
  total_quantity : Int
  total_revenue : ℚ
  total_profit : ℚ
  avg_order_value : ℚ
deriving DecidableEq

/-- Distinct keys of a list, first occurrences first. -/
def distinctKeys {κ : Type} [DecidableEq κ] (l : List κ) : List κ :=
  dedupFirst (fun k => k) l

/-- Modelled from the spec: one group's aggregate row (missing module
analyzer, §4.4): over the rows of the dataset whose grouping key equals k,
count transactions, sum quantity, revenue (sales_amount) and profit, and
divide revenue by the transaction count for the average order value. -/
def mkGroupRow {κ : Type} [DecidableEq κ] (key : SalesRecord → κ)
    (ds : List SalesRecord) (k : κ) : GroupRow κ :=
  let rows := ds.filter (fun r => key r = k)
  { key := k
    transaction_count := rows.length
    total_quantity := (rows.map (fun r => r.quantity)).sum
    total_revenue := (rows.map (fun r => r.sales_amount)).sum
    total_profit := (rows.map (fun r => r.profit)).sum
    avg_order_value := (rows.map (fun r => r.sales_amount)).sum / (rows.length : ℚ) }

/-- Modelled from the spec: the unordered grouped analysis (missing module
analyzer, §4.4): one aggregate row per distinct value of the grouping key. -/
def analysisRows {κ : Type} [DecidableEq κ] (key : SalesRecord → κ)
    (ds : List SalesRecord) : List (GroupRow κ) :=
  (distinctKeys (ds.map key)).map (mkGroupRow key ds)

/-- Result ordering of the revenue-ordered analyses (§4.4): descending
total_revenue, ties broken by ascending alphabetical group key. -/
def revLe (g h : GroupRow String) : Prop :=
  h.total_revenue < g.total_revenue ∨
    (g.total_revenue = h.total_revenue ∧ g.key ≤ h.key)

instance : DecidableRel revLe := fun g h => by
  unfold revLe; infer_instance

instance : IsTotal (GroupRow String) revLe := by
  constructor
  intro g h
  rcases lt_trichotomy g.total_revenue h.total_revenue with hlt | heq | hgt
  · exact Or.inr (Or.inl hlt)
  · rcases le_total g.key h.key with hk | hk
    · exact Or.inl (Or.inr ⟨heq, hk⟩)
    · exact Or.inr (Or.inr ⟨heq.symm, hk⟩)
  · exact Or.inl (Or.inl hgt)

instance : IsTrans (GroupRow String) revLe := by
  constructor
  intro a b c hab hbc
  rcases hab with hab | ⟨hab1, hab2⟩
  · rcases hbc with hbc | ⟨hbc1, hbc2⟩
    · exact Or.inl (lt_trans hbc hab)
    · exact Or.inl (hbc1 ▸ hab)
  · rcases hbc with hbc | ⟨hbc1, hbc2⟩
    · exact Or.inl (lt_of_lt_of_eq hbc hab1.symm)
    · exact Or.inr ⟨hab1.trans hbc1, le_trans hab2 hbc2⟩

/-- Result ordering of the by_time analysis (§4.4): ascending chronological
by month key. -/
def monthLe (g h : GroupRow Nat) : Prop := g.key ≤ h.key

instance : DecidableRel monthLe := fun _ _ => Nat.decLe _ _

instance : IsTotal (GroupRow Nat) monthLe := ⟨fun _ _ => Nat.le_total _ _⟩

instance : IsTrans (GroupRow Nat) monthLe := ⟨fun _ _ _ => Nat.le_trans⟩

/-- Modelled from the spec: the by-category analysis (missing module
analyzer, analyze_by_category, §4.4): group by category, order by descending
total_revenue with alphabetical tie-break. -/
def analyze_by_category (ds : List SalesRecord) : List (GroupRow String) :=
  List.insertionSort revLe (analysisRows (fun r => r.category) ds)

/-- Modelled from the spec: the by-region analysis (missing module analyzer,
analyze_by_region, §4.4). -/
def analyze_by_region (ds : List SalesRecord) : List (GroupRow String) :=
  List.insertionSort revLe (analysisRows (fun r => r.region) ds)

/-- Modelled from the spec: the by-sales-rep analysis (missing module
analyzer, analyze_sales_reps, §4.4). -/
def analyze_sales_reps (ds : List SalesRecord) : List (GroupRow String) :=
  List.insertionSort revLe (analysisRows (fun r => r.sales_rep) ds)

/-- Modelled from the spec: the by-time analysis (missing module analyzer,
analyze_sales_over_time, §4.4): group by sale_date truncated to month,
ordered ascending chronologically. -/
def analyze_sales_over_time (ds : List SalesRecord) : List (GroupRow Nat) :=
  List.insertionSort monthLe (analysisRows (fun r => monthKey r.sale_date) ds)

/-- Total revenue of a dataset: the sum of sales_amount over all rows. -/
def totalRevenue (ds : List SalesRecord) : ℚ :=
  (ds.map (fun r => r.sales_amount)).sum

/-- Sum of the total_revenue column over the rows of an analysis table. -/
def sumRevenue {κ : Type} (t : List (GroupRow κ)) : ℚ :=
  (t.map (fun g => g.total_revenue)).sum

/-- The combined report: the four Analysis Result tables of one run (§4.4). -/
structure CombinedReport where
  by_category : List (GroupRow String)
  by_region : List (GroupRow String)
  by_sales_rep : List (GroupRow String)
  by_time : List (GroupRow Nat)
deriving DecidableEq

/-- Modelled from the spec: combined report assembly (missing module
analyzer, get_comprehensive_report, §4.4). -/
def get_comprehensive_report (ds : List SalesRecord) : CombinedReport :=
  { by_category := analyze_by_category ds
    by_region := analyze_by_region ds
    by_sales_rep := analyze_sales_reps ds
    by_time := analyze_sales_over_time ds }

/-- Errors of the spec's taxonomy (§7) that a run could propagate.  The code
in src/main.py never raises these: they appear here only so that statements
about what SalesAnalysisSystem.run does NOT do are expressible. -/
inductive CoreError where
  | emptyDataset
  | schemaMismatch
deriving DecidableEq

/-- Outcome of SalesAnalysisSystem.run for a loaded raw table. -/
inductive RunOutcome where
  | noData
  | completed (report : CombinedReport)
  | raised (e : CoreError)
deriving DecidableEq

/-- SalesAnalysisSystem.run (src/main.py:22-101), from the point where the
raw table is loaded: clean the data; when nothing survives cleaning the code
prints a message and returns normally with no analysis performed
(src/main.py:49-52); otherwise analysis proceeds and the combined report is
produced and handed to visualization and export. -/
def run (raw : List RawRecord) : RunOutcome :=
  let d := clean_data raw
  if d.isEmpty then RunOutcome.noData
  else RunOutcome.completed (get_comprehensive_report d)

/-- The Python exceptions relevant to export_results (src/main.py:132-191):
ImportError (openpyxl missing, caught at line 182), IndexError (empty-table
index access in the summary block, lines 155-168), and any other Exception
(caught by the generic handler at line 187). -/
inductive PyError where
  | importError
  | indexError
  | otherError
deriving DecidableEq

/-- One row of an analysis table as the export code sees it: the index value
and the revenue column read by the summary block (src/main.py:157). -/
structure SheetRow where
  rowKey : String
  revenueColumn : ℚ
deriving DecidableEq

/-- The analyses mapping passed to export_results: sheet name to table. -/
def lookupTable (analyses : List (String × List SheetRow)) (name : String) :
    Option (List SheetRow) :=
  (analyses.find? (fun p => p.fst = name)).map (fun p => p.snd)

/-- One summary block of export_results (src/main.py:155-168): when the named
table is present in the mapping, read its first row; an empty table makes the
first-row access raise IndexError. -/
def summaryStep (analyses : List (String × List SheetRow)) (name : String) :
    Except PyError Unit :=
  match lookupTable analyses name with
  | none => Except.ok ()
  | some t =>
    match t.head? with
    | none => Except.error PyError.indexError
    | some _ => Except.ok ()

/-- The body of the Excel attempt in export_results (src/main.py:139-180):
importing openpyxl (raises ImportError when unavailable), writing the data
sheets, then the three summary blocks in source order (categories, regions,
sellers).  Returns the first exception raised, if any. -/
def buildExcel (openpyxlAvailable : Bool)
    (analyses : List (String × List SheetRow)) : Except PyError Unit :=
  if openpyxlAvailable then
    match summaryStep analyses "Анализ_по_категориям" with
    | Except.error e => Except.error e
    | Except.ok _ =>
      match summaryStep analyses "Анализ_по_регионам" with
      | Except.error e => Except.error e
      | Except.ok _ => summaryStep analyses "Анализ_продавцов"
  else
    Except.error PyError.importError

/-- How the export run ended: the Excel file was written, or the CSV fallback
(export_to_csv) was taken. -/
inductive ExportOutcome where
  | excelSaved
  | csvSaved
deriving DecidableEq

/-- SalesAnalysisSystem.export_results (src/main.py:132-191): attempt the
Excel writer; ImportError is caught by the inner handler (line 182) and any
other Exception by the outer handler (line 187), and both handlers call
export_to_csv. -/
def export_results (openpyxlAvailable : Bool)
    (analyses : List (String × List SheetRow)) : ExportOutcome :=
  match buildExcel openpyxlAvailable analyses with
  | Except.ok _ => ExportOutcome.excelSaved
  | Except.error _ => ExportOutcome.csvSaved

/-- The cleaned-data frame as the export code reads it: the Sales_Amount
column, and the Profit column when present ('Profit' in self.data.columns). -/
structure CleanTable where
  salesAmounts : List ℚ
  profitColumn : Option (List ℚ)
deriving DecidableEq

/-- The total-profit expression of the Excel summary sheet
(src/main.py:172): the Profit column's sum if the column exists, else 0. -/
def totalProfitSummarySheet (d : CleanTable) : ℚ :=
  match d.profitColumn with
  | some ps => ps.sum
  | none => 0

/-- The total-profit expression of the CSV text report, in export_to_csv
(src/main.py:217): the Profit column's sum if the column exists, else 0. -/
def totalProfitTextReport (d : CleanTable) : ℚ :=
  match d.profitColumn with
  | some ps => ps.sum
  | none => 0

/-! Helper lemmas about first-occurrence deduplication. -/

theorem mem_of_mem_dedupFirstAux {α κ : Type} [DecidableEq κ] (key : α → κ) :
    ∀ (seen : List κ) (l : List α) (x : α),
      x ∈ dedupFirstAux key seen l → x ∈ l := by
  intro seen l
  induction l generalizing seen with
  | nil => intro x hx; simp [dedupFirstAux] at hx
  | cons y ys ih =>
    intro x hx
    simp only [dedupFirstAux] at hx
    by_cases hy : key y ∈ seen
    · simp only [if_pos hy] at hx
      exact List.mem_cons_of_mem _ (ih seen x hx)
    · simp only [if_neg hy, List.mem_cons] at hx
      rcases hx with rfl | hx
      · exact List.mem_cons_self _ _
      · exact List.mem_cons_of_mem _ (ih _ x hx)

theorem key_notMem_seen_of_mem_dedupFirstAux {α κ : Type} [DecidableEq κ]
    (key : α → κ) :
    ∀ (seen : List κ) (l : List α) (x : α),
      x ∈ dedupFirstAux key seen l → key x ∉ seen := by
  intro seen l
  induction l generalizing seen with
  | nil => intro x hx; simp [dedupFirstAux] at hx
  | cons y ys ih =>
    intro x hx
    simp only [dedupFirstAux] at hx
    by_cases hy : key y ∈ seen
    · simp only [if_pos hy] at hx
      exact ih seen x hx
    · simp only [if_neg hy, List.mem_cons] at hx
      rcases hx with rfl | hx
      · exact hy
      · intro hmem
        exact ih _ x hx (List.mem_cons_of_mem _ hmem)

theorem pairwise_dedupFirstAux {α κ : Type} [DecidableEq κ] (key : α → κ) :
    ∀ (seen : List κ) (l : List α),
      List.Pairwise (fun a b => key a ≠ key b) (dedupFirstAux key seen l) := by
  intro seen l
  induction l generalizing seen with
  | nil => simp [dedupFirstAux]
  | cons y ys ih =>
    simp only [dedupFirstAux]
    by_cases hy : key y ∈ seen
    · simpa [if_pos hy] using ih seen
    · simp only [if_neg hy]
      refine List.Pairwise.cons ?_ (ih _)
      intro b hb hkey
      have := key_notMem_seen_of_mem_dedupFirstAux key _ _ _ hb
      exact this (hkey ▸ List.mem_cons_self _ _)

theorem find_first_of_mem_dedupFirstAux {α κ : Type} [DecidableEq κ]
    (key : α → κ) :
    ∀ (seen : List κ) (l : List α) (x : α),
      x ∈ dedupFirstAux key seen l →
      l.find? (fun y => key y = key x) = some x := by
  intro seen l
  induction l generalizing seen with
  | nil => intro x hx; simp [dedupFirstAux] at hx
  | cons y ys ih =>
    intro x hx
    simp only [dedupFirstAux] at hx
    by_cases hy : key y ∈ seen
    · simp only [if_pos hy] at hx
      have hxs : key x ∉ seen := key_notMem_seen_of_mem_dedupFirstAux key _ _ _ hx
      have hne : (key y = key x) = False := by
        simp only [eq_iff_iff, iff_false]
        intro h
        exact hxs (h ▸ hy)
      rw [List.find?_cons]
      simp only [hne, decide_False]
      exact ih seen x hx
    · simp only [if_neg hy, List.mem_cons] at hx
      rcases hx with rfl | hx
      · rw [List.find?_cons]
        simp
      · have hxs : key x ∉ key y :: seen :=
          key_notMem_seen_of_mem_dedupFirstAux key _ _ _ hx
        have hne : (key y = key x) = False := by
          simp only [eq_iff_iff, iff_false]
          intro h
          exact hxs (h ▸ List.mem_cons_self _ _)
        rw [List.find?_cons]
        simp only [hne, decide_False]
        exact ih _ x hx

theorem length_dedupFirstAux_le {α κ : Type} [DecidableEq κ] (key : α → κ) :
    ∀ (seen : List κ) (l : List α),
      (dedupFirstAux key seen l).length ≤ l.length := by
  intro seen l
  induction l generalizing seen with
  | nil => simp [dedupFirstAux]
  | cons y ys ih =>
    simp only [dedupFirstAux]
    by_cases hy : key y ∈ seen
    · simp only [if_pos hy]
      exact Nat.le_succ_of_le (ih seen)
    · simp only [if_neg hy, List.length_cons]
      exact Nat.succ_le_succ (ih _)

theorem mem_map_dedupFirstAux_of_mem {α κ : Type} [DecidableEq κ]
    (key : α → κ) :
    ∀ (seen : List κ) (l : List α) (x : α),
      x ∈ l → key x ∉ seen →
      key x ∈ (dedupFirstAux key seen l).map key := by
  intro seen l
  induction l generalizing seen with
  | nil => intro x hx; simp at hx
  | cons y ys ih =>
    intro x hx hseen
    simp only [List.mem_cons] at hx
    simp only [dedupFirstAux]
    by_cases hy : key y ∈ seen
    · rcases hx with rfl | hx
      · exact absurd hy hseen
      · simpa [if_pos hy] using ih seen x hx hseen
    · simp only [if_neg hy, List.map_cons, List.mem_cons]
      rcases hx with rfl | hx
      · exact Or.inl rfl
      · by_cases hkx : key x = key y
        · exact Or.inl hkx
        · refine Or.inr (ih _ x hx ?_)
          simp only [List.mem_cons, not_or]
          exact ⟨hkx, hseen⟩

theorem mem_distinctKeys_of_mem {κ : Type} [DecidableEq κ] {l : List κ}
    {k : κ} (hk : k ∈ l) : k ∈ distinctKeys l := by
  have := mem_map_dedupFirstAux_of_mem (fun x => x) [] l k hk (by simp)
  simpa [distinctKeys, dedupFirst] using this

theorem nodup_distinctKeys {κ : Type} [DecidableEq κ] (l : List κ) :
    (distinctKeys l).Nodup :=
  pairwise_dedupFirstAux (fun x => x) [] l

/-! Helper lemmas: summing a column fiberwise over the distinct keys. -/

theorem sum_map_filter_add {α : Type} (p : α → Bool) (f : α → ℚ)
    (l : List α) :
    ((l.filter p).map f).sum + ((l.filter (fun a => !(p a))).map f).sum =
      (l.map f).sum := by
  induction l with
  | nil => simp
  | cons x xs ih =>
    cases hx : p x with
    | true =>
      simp only [List.filter_cons, hx, Bool.not_true, if_true,
        Bool.false_eq_true, if_false, List.map_cons, List.sum_cons]
      linarith [ih]
    | false =>
      simp only [List.filter_cons, hx, Bool.not_false, if_true,
        Bool.false_eq_true, if_false, List.map_cons, List.sum_cons]
      linarith [ih]

theorem filter_filter_of_ne {α κ : Type} [DecidableEq κ] (key : α → κ)
    {k k0 : κ} (hne : k ≠ k0) (l : List α) :
    ((l.filter (fun a => !(decide (key a = k0)))).filter
        (fun a => decide (key a = k))) =
      l.filter (fun a => decide (key a = k)) := by
  induction l with
  | nil => simp
  | cons x xs ih =>
    by_cases hx0 : key x = k0
    · have hxk : (key x = k) = False := by
        simp only [eq_iff_iff, iff_false]
        intro h
        exact hne (h ▸ hx0)
      simp [List.filter_cons, hx0, hxk, ih, Ne.symm hne]
    · by_cases hxk : key x = k
      · simp [List.filter_cons, hx0, hxk, ih, hne]
      · simp [List.filter_cons, hx0, hxk, ih]

theorem sum_fibers {α κ : Type} [DecidableEq κ] (key : α → κ) (f : α → ℚ) :
    ∀ (keys : List κ) (l : List α), keys.Nodup →
      (∀ a ∈ l, key a ∈ keys) →
      (keys.map
          (fun k => ((l.filter (fun a => key a = k)).map f).sum)).sum =
        (l.map f).sum := by
  intro keys
  induction keys with
  | nil =>
    intro l _ hcov
    have : l = [] := by
      cases l with
      | nil => rfl
      | cons x xs => exact absurd (hcov x (List.mem_cons_self _ _)) (by simp)
    simp [this]
  | cons k ks ih =>
    intro l hnd hcov
    have hknotin : k ∉ ks := (List.nodup_cons.mp hnd).1
    have hndks : ks.Nodup := (List.nodup_cons.mp hnd).2
    have hstep :
        (ks.map
            (fun k2 => ((l.filter (fun a => key a = k2)).map f).sum)).sum =
          (ks.map
            (fun k2 =>
              (((l.filter (fun a => !(decide (key a = k)))).filter
                  (fun a => key a = k2)).map f).sum)).sum := by
      refine congrArg List.sum (List.map_congr_left ?_)
      intro k2 hk2
      have hne : k2 ≠ k := fun h => hknotin (h ▸ hk2)
      rw [filter_filter_of_ne key hne]
    have hcov2 : ∀ a ∈ l.filter (fun a => !(decide (key a = k))),
        key a ∈ ks := by
      intro a ha
      have hmem := List.mem_filter.mp ha
      have hne : key a ≠ k := by
        have := hmem.2
        simpa using this
      have := hcov a hmem.1
      simp only [List.mem_cons] at this
      rcases this with h | h
      · exact absurd h hne
      · exact h
    calc (((k :: ks)).map
            (fun k2 => ((l.filter (fun a => key a = k2)).map f).sum)).sum
        = ((l.filter (fun a => key a = k)).map f).sum +
            (ks.map
              (fun k2 => ((l.filter (fun a => key a = k2)).map f).sum)).sum := by
          simp
      _ = ((l.filter (fun a => key a = k)).map f).sum +
            ((l.filter (fun a => !(decide (key a = k)))).map f).sum := by
          rw [hstep, ih _ hndks hcov2]
      _ = (l.map f).sum := sum_map_filter_add _ f l

/-! Helper lemmas about the aggregation tables and the stable sort. -/

theorem sumRevenue_analysisRows {κ : Type} [DecidableEq κ]
    (key : SalesRecord → κ) (ds : List SalesRecord) :
    sumRevenue (analysisRows key ds) = totalRevenue ds := by
  unfold sumRevenue analysisRows totalRevenue
  rw [List.map_map]
  have hmaps :
      ((fun g : GroupRow κ => g.total_revenue) ∘ mkGroupRow key ds) =
        fun k =>
          ((ds.filter (fun r => key r = k)).map
            (fun r => r.sales_amount)).sum := by
    funext k
    simp [mkGroupRow, Function.comp]
  rw [hmaps]
  exact sum_fibers key (fun r => r.sales_amount) _ ds
    (nodup_distinctKeys _)
    (fun r hr => mem_distinctKeys_of_mem (List.mem_map_of_mem key hr))

theorem sumRevenue_insertionSort {κ : Type} (r : GroupRow κ → GroupRow κ → Prop)
    [DecidableRel r] (t : List (GroupRow κ)) :
    sumRevenue (List.insertionSort r t) = sumRevenue t := by
  unfold sumRevenue
  exact ((List.perm_insertionSort r t).map (fun g => g.total_revenue)).sum_eq

theorem filter_dateKey_insertionSort (l : List SalesRecord) (k : Nat) :
    (List.insertionSort dateLe l).filter (fun r => dateKey r.sale_date = k) =
      l.filter (fun r => dateKey r.sale_date = k) := by
  have hpair :
      List.Pairwise dateLe (l.filter (fun r => dateKey r.sale_date = k)) := by
    refine List.pairwise_of_forall_mem_list ?_
    intro a ha b hb
    have ha2 := List.of_mem_filter ha
    have hb2 := List.of_mem_filter hb
    simp only [decide_eq_true_eq] at ha2 hb2
    unfold dateLe
    rw [ha2, hb2]
  have hsub :
      List.Sublist (l.filter (fun r => dateKey r.sale_date = k))
        (List.insertionSort dateLe l) :=
    List.sublist_insertionSort hpair (List.filter_sublist l)
  have hsub2 :
      List.Sublist (l.filter (fun r => dateKey r.sale_date = k))
        ((List.insertionSort dateLe l).filter
          (fun r => dateKey r.sale_date = k)) := by
    have := hsub.filter (fun r => decide (dateKey r.sale_date = k))
    simpa [List.filter_filter] using this
  have hlen :
      ((List.insertionSort dateLe l).filter
          (fun r => dateKey r.sale_date = k)).length =
        (l.filter (fun r => dateKey r.sale_date = k)).length :=
    ((List.perm_insertionSort dateLe l).filter _).length_eq
  exact (hsub2.eq_of_length hlen.symm).symm

/-! Helper lemmas about validation and membership in the cleaned dataset. -/

theorem validateRow_eq_some {r : RawRecord} {k : KeptRow}
    (h : validateRow r = some k) :
    k.product_id ≠ "" ∧ k.sales_rep ≠ "" ∧ k.region ≠ "" ∧ k.category ≠ "" ∧
      0 < k.quantity ∧ 0 ≤ k.unit_cost ∧ 0 ≤ k.unit_price ∧
      0 ≤ k.discount_pct ∧ k.discount_pct < 100 := by
  unfold validateRow at h
  split at h
  · split at h
    · rename_i hcond
      cases h
      exact hcond
    · exact absurd h (by simp)
  · exact absurd h (by simp)

theorem mem_derivedRows_of_mem_clean_data {raw : List RawRecord}
    {r : SalesRecord} (h : r ∈ clean_data raw) : r ∈ derivedRows raw :=
  ((List.perm_insertionSort dateLe _).mem_iff).mp h

theorem exists_kept_of_mem_clean_data {raw : List RawRecord} {r : SalesRecord}
    (h : r ∈ clean_data raw) :
    ∃ k ∈ dedupedRows raw, addDerived k = r := by
  have h2 : r ∈ derivedRows raw := mem_derivedRows_of_mem_clean_data h
  exact List.mem_map.mp h2

theorem mem_keptRows_of_mem_dedupedRows {raw : List RawRecord} {k : KeptRow}
    (h : k ∈ dedupedRows raw) : k ∈ keptRows raw :=
  mem_of_mem_dedupFirstAux tripleK [] _ k h

theorem exists_raw_of_mem_keptRows {raw : List RawRecord} {k : KeptRow}
    (h : k ∈ keptRows raw) : ∃ r0 ∈ raw, validateRow r0 = some k :=
  List.mem_filterMap.mp h

/-- Claim C1, counterexample: on the empty raw input, run ends in the no-data
outcome — it does not raise or propagate an EmptyDatasetError. -/
theorem c1_counterexample :
    run [] = RunOutcome.noData ∧
      run [] ≠ RunOutcome.raised CoreError.emptyDataset :=
  ⟨rfl, fun h => nomatch h⟩

/-- Claim C1 (amended): for every raw input, if zero rows survive cleaning
(including the empty raw input), run stops before analysis with the no-data
outcome: no Analysis Result or partial results are produced, and no
EmptyDatasetError (or any other error) is propagated — the emptiness is
handled by a printed message and a normal early return (src/main.py:49-52). -/
theorem c1_empty_clean_no_results (raw : List RawRecord)
    (h : clean_data raw = []) :
    run raw = RunOutcome.noData ∧
      (∀ rep, run raw ≠ RunOutcome.completed rep) ∧
      (∀ e, run raw ≠ RunOutcome.raised e) := by
  have hrun : run raw = RunOutcome.noData := by
    unfold run
    rw [h]
    rfl
  refine ⟨hrun, ?_, ?_⟩
  · intro rep hc
    rw [hrun] at hc
    exact nomatch hc
  · intro e hc
    rw [hrun] at hc
    exact nomatch hc

/-- Claim C1, witness: the amended theorem applied to the empty raw input. -/
theorem c1_witness :
    clean_data [] = [] ∧
      run [] = RunOutcome.noData ∧
      (∀ rep, run [] ≠ RunOutcome.completed rep) ∧
      (∀ e, run [] ≠ RunOutcome.raised e) :=
  ⟨rfl, c1_empty_clean_no_results [] rfl⟩

/-- Claim C8: whenever the Excel attempt of export_results fails with any
exception — in particular ImportError when openpyxl is unavailable — the
export falls back to the CSV writer (src/main.py:137-191): the inner handler
catches ImportError and the outer handler catches every other Exception, and
both call export_to_csv, so a failed Excel export never silently loses the
results. -/
theorem c8_excel_failure_falls_back_to_csv (openpyxlAvailable : Bool)
    (analyses : List (String × List SheetRow)) (e : PyError)
    (h : buildExcel openpyxlAvailable analyses = Except.error e) :
    export_results openpyxlAvailable analyses = ExportOutcome.csvSaved ∧
      buildExcel false analyses = Except.error PyError.importError := by
  constructor
  · unfold export_results
    rw [h]
  · rfl

/-- Claim C8, witness: with openpyxl unavailable the Excel attempt fails with
ImportError and the export falls back to CSV. -/
theorem c8_witness :
    buildExcel false [] = Except.error PyError.importError ∧
      export_results false [] = ExportOutcome.csvSaved :=
  ⟨rfl, (c8_excel_failure_falls_back_to_csv false [] PyError.importError rfl).1⟩

/-- Claim C9: when the profit column is entirely absent from the cleaned
data, the reported total profit is 0 — not an error and not a missing
value — both in the Excel summary sheet (src/main.py:172) and in the CSV
text report (src/main.py:217). -/
theorem c9_total_profit_zero_when_column_absent (d : CleanTable)
    (h : d.profitColumn = none) :
    totalProfitSummarySheet d = 0 ∧ totalProfitTextReport d = 0 := by
  unfold totalProfitSummarySheet totalProfitTextReport
  rw [h]
  exact ⟨rfl, rfl⟩

/-- Claim C9, witness: a table with sales but no profit column reports total
profit 0 in both export paths. -/
theorem c9_witness :
    (CleanTable.mk [100] none).profitColumn = none ∧
      totalProfitSummarySheet (CleanTable.mk [100] none) = 0 ∧
      totalProfitTextReport (CleanTable.mk [100] none) = 0 :=
  ⟨rfl, c9_total_profit_zero_when_column_absent (CleanTable.mk [100] none) rfl⟩

/-- Claim C10: if the combined report holds the category summary key mapped
to an empty table, the Excel branch reads that table's first row with no
emptiness check (src/main.py:155-157), raising IndexError; the generic
handler (src/main.py:187-191) catches it and the whole export falls back to
CSV instead of producing the Excel file. -/
theorem c10_empty_summary_table_indexerror
    (analyses : List (String × List SheetRow)) (t : List SheetRow)
    (h1 : lookupTable analyses "Анализ_по_категориям" = some t)
    (h2 : t = []) :
    buildExcel true analyses = Except.error PyError.indexError ∧
      export_results true analyses = ExportOutcome.csvSaved := by
  subst h2
  have hb : buildExcel true analyses = Except.error PyError.indexError := by
    unfold buildExcel summaryStep
    rw [h1]
    rfl
  refine ⟨hb, ?_⟩
  unfold export_results
  rw [hb]

/-- Claim C10, witness: a report carrying the category summary key with an
empty table makes the Excel attempt raise IndexError and the export fall
back to CSV. -/
theorem c10_witness :
    lookupTable [("Анализ_по_категориям", [])] "Анализ_по_категориям" =
        some [] ∧
      buildExcel true [("Анализ_по_категориям", [])] =
        Except.error PyError.indexError ∧
      export_results true [("Анализ_по_категориям", [])] =
        ExportOutcome.csvSaved :=
  ⟨rfl, c10_empty_summary_table_indexerror _ [] rfl rfl⟩

/-- Claim C2: every row of a Cleaned Dataset satisfies the Sales Record
invariants: quantity > 0, discount_pct in [0, 100), and sales_amount equal
to the value recomputed from unit_price, quantity and discount_pct rounded
to 2 decimals. -/
theorem c2_cleaned_rows_satisfy_invariants (raw : List RawRecord)
    (r : SalesRecord) (h : r ∈ clean_data raw) :
    0 < r.quantity ∧ 0 ≤ r.discount_pct ∧ r.discount_pct < 100 ∧
      r.sales_amount =
        round2 (r.unit_price * (r.quantity : ℚ) * (1 - r.discount_pct / 100)) := by
  obtain ⟨k, hk, hkr⟩ := exists_kept_of_mem_clean_data h
  obtain ⟨r0, _, hv⟩ :=
    exists_raw_of_mem_keptRows (mem_keptRows_of_mem_dedupedRows hk)
  have hp := validateRow_eq_some hv
  subst hkr
  exact ⟨hp.2.2.2.2.1, hp.2.2.2.2.2.2.2.1, hp.2.2.2.2.2.2.2.2, rfl⟩

/-- Claim C3: for each of the four Aggregation Engine outputs, the sum over
all groups of total_revenue equals the dataset's total revenue: grouping
neither loses nor double-counts rows. -/
theorem c3_group_revenues_sum_to_total (ds : List SalesRecord) :
    sumRevenue (analyze_by_category ds) = totalRevenue ds ∧
      sumRevenue (analyze_by_region ds) = totalRevenue ds ∧
      sumRevenue (analyze_sales_reps ds) = totalRevenue ds ∧
      sumRevenue (analyze_sales_over_time ds) = totalRevenue ds := by
  refine ⟨?_, ?_, ?_, ?_⟩
  · unfold analyze_by_category
    rw [sumRevenue_insertionSort, sumRevenue_analysisRows]
  · unfold analyze_by_region
    rw [sumRevenue_insertionSort, sumRevenue_analysisRows]
  · unfold analyze_sales_reps
    rw [sumRevenue_insertionSort, sumRevenue_analysisRows]
  · unfold analyze_sales_over_time
    rw [sumRevenue_insertionSort, sumRevenue_analysisRows]

theorem keptRows_set_amount (g : RawRecord → Option ℚ) :
    ∀ raws : List RawRecord,
      keptRows (raws.map (fun r => { r with sales_amount := g r })) =
        keptRows raws := by
  intro raws
  induction raws with
  | nil => rfl
  | cons x xs ih =>
    unfold keptRows at *
    simp only [List.map_cons, List.filterMap_cons]
    have hx : validateRow { x with sales_amount := g x } = validateRow x := by
      cases x
      rfl
    rw [hx, ih]

/-- Claim C4: the Data Cleaner sets every kept row's sales_amount to
unit_price * quantity * (1 - discount_pct/100) rounded to 2 decimals, and a
raw row's own sales_amount never influences validation or the cleaned
output: the recomputed value wins and a conflicting row is not rejected. -/
theorem c4_recomputed_sales_amount_wins (r0 : RawRecord) (a : Option ℚ)
    (k : KeptRow) (raws : List RawRecord) (g : RawRecord → Option ℚ) :
    validateRow { r0 with sales_amount := a } = validateRow r0 ∧
      (addDerived k).sales_amount =
        round2 (k.unit_price * (k.quantity : ℚ) * (1 - k.discount_pct / 100)) ∧
      clean_data (raws.map (fun r => { r with sales_amount := g r })) =
        clean_data raws := by
  refine ⟨by cases r0; rfl, rfl, ?_⟩
  unfold clean_data derivedRows dedupedRows dedupFirst
  rw [keptRows_set_amount]

/-- Claim C5: the Cleaned Dataset has no duplicate
(product_id, sale_date, sales_rep) triples; every cleaned row descends from
the FIRST kept row in original file order with its triple (later occurrences
are dropped); and the number of dropped duplicates is counted as
duplicates_dropped in the cleaning report. -/
theorem c5_dedup_keeps_first_occurrence (raw : List RawRecord) :
    List.Pairwise (fun a b => tripleS a ≠ tripleS b) (clean_data raw) ∧
      (∀ r ∈ clean_data raw, ∃ k,
        (keptRows raw).find? (fun x => tripleK x = tripleS r) = some k ∧
          addDerived k = r) ∧
      (cleaningReport raw).duplicates_dropped + (clean_data raw).length =
        (keptRows raw).length := by
  refine ⟨?_, ?_, ?_⟩
  · have hd : List.Pairwise (fun a b => tripleK a ≠ tripleK b)
        (dedupedRows raw) :=
      pairwise_dedupFirstAux tripleK [] (keptRows raw)
    have hm : List.Pairwise (fun a b : SalesRecord => tripleS a ≠ tripleS b)
        (derivedRows raw) := by
      unfold derivedRows
      exact List.Pairwise.map addDerived (fun a b hab => hab) hd
    exact ((List.perm_insertionSort dateLe
      (derivedRows raw)).pairwise_iff (fun h => Ne.symm h)).mpr hm
  · intro r hr
    obtain ⟨k, hk, hkr⟩ := exists_kept_of_mem_clean_data hr
    have hf := find_first_of_mem_dedupFirstAux tripleK [] (keptRows raw) k hk
    have ht : tripleS r = tripleK k := by
      rw [← hkr]
      rfl
    refine ⟨k, ?_, hkr⟩
    rw [ht]
    exact hf
  · have hlen : (clean_data raw).length = (dedupedRows raw).length := by
      unfold clean_data
      rw [(List.perm_insertionSort dateLe (derivedRows raw)).length_eq]
      unfold derivedRows
      rw [List.length_map]
    have hle : (dedupedRows raw).length ≤ (keptRows raw).length :=
      length_dedupFirstAux_le tripleK [] (keptRows raw)
    simp only [cleaningReport]
    omega

theorem le_head_of_pairwise_revLe {t : List (GroupRow String)}
    (hp : List.Pairwise revLe t) :
    ∀ g ∈ t, ∀ h0, t.head? = some h0 →
      g.total_revenue ≤ h0.total_revenue := by
  intro g hg h0 hh
  cases t with
  | nil => exact absurd hh (by simp)
  | cons x rest =>
    have hx : h0 = x := by
      simp only [List.head?_cons, Option.some.injEq] at hh
      exact hh.symm
    subst hx
    simp only [List.mem_cons] at hg
    rcases hg with rfl | hg
    · exact le_refl _
    · rcases List.rel_of_pairwise_cons hp hg with hlt | ⟨heq, _⟩
      · exact le_of_lt hlt
      · exact le_of_eq heq.symm

/-- Claim C6: the by_category, by_region and by_sales_rep tables are ordered
by descending total_revenue with ties broken by ascending alphabetical group
key; by_time is ordered ascending chronologically by month; hence the first
row of each revenue-ordered table has the highest total_revenue. -/
theorem c6_analysis_tables_ordered (ds : List SalesRecord) :
    List.Pairwise revLe (analyze_by_category ds) ∧
      List.Pairwise revLe (analyze_by_region ds) ∧
      List.Pairwise revLe (analyze_sales_reps ds) ∧
      List.Pairwise monthLe (analyze_sales_over_time ds) ∧
      (∀ g ∈ analyze_by_category ds, ∀ h0,
        (analyze_by_category ds).head? = some h0 →
          g.total_revenue ≤ h0.total_revenue) ∧
      (∀ g ∈ analyze_by_region ds, ∀ h0,
        (analyze_by_region ds).head? = some h0 →
          g.total_revenue ≤ h0.total_revenue) ∧
      (∀ g ∈ analyze_sales_reps ds, ∀ h0,
        (analyze_sales_reps ds).head? = some h0 →
          g.total_revenue ≤ h0.total_revenue) := by
  have h1 : List.Pairwise revLe (analyze_by_category ds) :=
    List.sorted_insertionSort revLe (analysisRows (fun r => r.category) ds)
  have h2 : List.Pairwise revLe (analyze_by_region ds) :=
    List.sorted_insertionSort revLe (analysisRows (fun r => r.region) ds)
  have h3 : List.Pairwise revLe (analyze_sales_reps ds) :=
    List.sorted_insertionSort revLe (analysisRows (fun r => r.sales_rep) ds)
  have h4 : List.Pairwise monthLe (analyze_sales_over_time ds) :=
    List.sorted_insertionSort monthLe
      (analysisRows (fun r => monthKey r.sale_date) ds)
  exact ⟨h1, h2, h3, h4, le_head_of_pairwise_revLe h1,
    le_head_of_pairwise_revLe h2, le_head_of_pairwise_revLe h3⟩

/-- Claim C7: the Data Cleaner is deterministic — as a pure function, two
runs on the same raw input are the same term, stated here as an equation —
and its output is sorted by sale_date ascending with ties left in original
file order (the sort is stable: each equal-date fiber of the output equals
that fiber of the pre-sort row sequence, which is in original file order). -/
theorem c7_cleaner_deterministic_sorted_stable (raw : List RawRecord) :
    clean_data raw = clean_data raw ∧
      List.Pairwise dateLe (clean_data raw) ∧
      ∀ k, (clean_data raw).filter (fun r => dateKey r.sale_date = k) =
        (derivedRows raw).filter (fun r => dateKey r.sale_date = k) :=
  ⟨rfl, List.sorted_insertionSort dateLe (derivedRows raw),
    fun k => filter_dateKey_insertionSort (derivedRows raw) k⟩

/-! Concrete sample rows (from §8's scenario data) used by the witnesses. -/

/-- A valid raw row: P001, 2023-01-01, Alice, North, Electronics, qty 2,
cost 40, price 100, no discount, no supplied sales_amount. -/
def rawR1 : RawRecord :=
  { product_id := some "P001", sale_date := some ⟨2023, 1, 1⟩,
    sales_rep := some "Alice", region := some "North",
    category := some "Electronics", quantity := some 2,
    unit_cost := some 40, unit_price := some 100,
    discount_pct := some 0, sales_amount := none }

/-- A valid raw row: P002, 2023-01-02, Bob, South, Food, qty 1, cost 20,
price 50, 10% discount, with a stale supplied sales_amount of 999. -/
def rawR2 : RawRecord :=
  { product_id := some "P002", sale_date := some ⟨2023, 1, 2⟩,
    sales_rep := some "Bob", region := some "South",
    category := some "Food", quantity := some 1,
    unit_cost := some 20, unit_price := some 50,
    discount_pct := some 10, sales_amount := some 999 }

/-- A valid raw row sharing rawR1's (product_id, sale_date, sales_rep)
triple but with different amounts: a duplicate in the dedup sense. -/
def rawDup : RawRecord :=
  { product_id := some "P001", sale_date := some ⟨2023, 1, 1⟩,
    sales_rep := some "Alice", region := some "North",
    category := some "Electronics", quantity := some 1,
    unit_cost := some 1, unit_price := some 999,
    discount_pct := some 0, sales_amount := some 5 }

/-- The validated form of rawR1. -/
def kept1 : KeptRow :=
  { product_id := "P001", sale_date := ⟨2023, 1, 1⟩, sales_rep := "Alice",
    region := "North", category := "Electronics", quantity := 2,
    unit_cost := 40, unit_price := 100, discount_pct := 0 }

/-- The cleaned Sales Record descending from rawR1. -/
def rec1 : SalesRecord := addDerived kept1

/-- The Electronics group row of the two-row sample dataset. -/
def gElec : GroupRow String :=
  { key := "Electronics", transaction_count := 1, total_quantity := 2,
    total_revenue := 200, total_profit := 120, avg_order_value := 200 }

/-- The Food group row of the two-row sample dataset. -/
def gFood : GroupRow String :=
  { key := "Food", transaction_count := 1, total_quantity := 1,
    total_revenue := 45, total_profit := 25, avg_order_value := 45 }

set_option maxRecDepth 100000

/-- Claim C2, witness: the invariants theorem applied to the concrete row
cleaned from rawR1. -/
theorem c2_witness :
    rec1 ∈ clean_data [rawR1] ∧
      (0 < rec1.quantity ∧ 0 ≤ rec1.discount_pct ∧ rec1.discount_pct < 100 ∧
        rec1.sales_amount =
          round2 (rec1.unit_price * (rec1.quantity : ℚ) *
            (1 - rec1.discount_pct / 100))) := by
  have hmem : rec1 ∈ clean_data [rawR1] := by with_unfolding_all decide
  exact ⟨hmem, c2_cleaned_rows_satisfy_invariants [rawR1] rec1 hmem⟩

/-- Claim C5, witness: on a table with a duplicated triple, the kept cleaned
row is the first occurrence, the duplicate is dropped and counted. -/
theorem c5_witness :
    rec1 ∈ clean_data [rawR1, rawDup] ∧
      (cleaningReport [rawR1, rawDup]).duplicates_dropped = 1 ∧
      (clean_data [rawR1, rawDup]).length = 1 ∧
      (∃ k, (keptRows [rawR1, rawDup]).find?
          (fun x => tripleK x = tripleS rec1) = some k ∧
        addDerived k = rec1) := by
  have hmem : rec1 ∈ clean_data [rawR1, rawDup] := by with_unfolding_all decide
  refine ⟨hmem, by with_unfolding_all decide, by with_unfolding_all decide, ?_⟩
  exact (c5_dedup_keeps_first_occurrence [rawR1, rawDup]).2.1 rec1 hmem

/-- Claim C6, witness: on the two-row sample dataset the by-category table
puts Electronics (revenue 200) first and Food (revenue 45) after it, and the
head row's revenue bounds the other rows'. -/
theorem c6_witness :
    gFood ∈ analyze_by_category (clean_data [rawR1, rawR2]) ∧
      (analyze_by_category (clean_data [rawR1, rawR2])).head? = some gElec ∧
      gFood.total_revenue ≤ gElec.total_revenue := by
  have hmem : gFood ∈ analyze_by_category (clean_data [rawR1, rawR2]) := by
    with_unfolding_all decide
  have hhead :
      (analyze_by_category (clean_data [rawR1, rawR2])).head? = some gElec := by
    with_unfolding_all decide
  exact ⟨hmem, hhead,
    (c6_analysis_tables_ordered (clean_data [rawR1, rawR2])).2.2.2.2.1
      gFood hmem gElec hhead⟩
